import Mathlib

/-!
# The trylock counter of `30_Threads_Synchronization/examples/01_trylock/main.c`

Two threads run `pthread_func`; each spins on `pthread_mutex_trylock(&mtx)`,
counts its failed attempts in its own slot of `locking_error`, and on success
runs the three statements of the critical section on `shared_resource` before
calling `pthread_mutex_unlock(&mtx)`.

The embedding is a small-step semantics: one `step` is one action of one thread,
a run is a list of `Event`s (which thread moves next, and what
`pthread_mutex_unlock` returns if that move is the unlock call).  Signed
overflow of an `int` is undefined behaviour in C, so a step that would overflow
has no successor (`none`).
-/

namespace Trylock

/-! ## Data model -/

/-- The two worker threads created by `main` (`t1`, `t2`). -/
inductive Tid where
  | t1
  | t2
  deriving DecidableEq, Repr

/-- The argument `num` of `pthread_func`: `THREAD_1 = 1`, `THREAD_2 = 2`. -/
def Tid.num : Tid → Nat
  | .t1 => 1
  | .t2 => 2

/-- Control points of `pthread_func` (line numbers of `01_trylock/main.c`). -/
inductive PC where
  /-- line 35: `while (local != 10000)` is about to be evaluated -/
  | loop_test
  /-- lines 51-52: `status = pthread_mutex_trylock(&mtx)` and the test of `status` -/
  | trylock
  /-- line 54: `locking_error[(int)num]++;`, reached when the call returned `EBUSY` -/
  | tally
  /-- line 59: `shared_resource = local;` -/
  | cs_assign
  /-- line 60: `shared_resource++;` -/
  | cs_incr
  /-- line 61: `local = shared_resource;` -/
  | cs_copy
  /-- lines 77-81: `status = pthread_mutex_unlock(&mtx)` and the failure branch -/
  | unlock
  /-- lines 86-88: the loop was left, `pthread_exit(NULL)` -/
  | finished
  /-- line 80: `pthread_exit(NULL)` after a failed unlock -/
  | aborted
  deriving DecidableEq, Repr

/-- The largest value of a 32-bit `int`, `INT_MAX`. -/
def INT_MAX : Int := 2147483647

/-- The file-scope variables `mtx`, `shared_resource`, `locking_error`, and for
each thread its control point and its automatic variable `local`. -/
structure State where
  /-- owner of `mtx`, `none` when unlocked -/
  mtx : Option Tid
  shared_resource : Int
  /-- `locking_error[k]`, `k = 0, 1, 2` -/
  locking_error : Nat → Int
  pc : Tid → PC
  /-- the variable `local` of each thread -/
  loc : Tid → Int

/-- One scheduling decision: the thread that performs its next action, and the
value `pthread_mutex_unlock` returns should that action be the unlock call. -/
structure Event where
  tid : Tid
  unlock_status : Int

/-- The state when both threads have been created: `mtx` is
`PTHREAD_MUTEX_INITIALIZER`, `shared_resource = 0`, `locking_error = {0}`, both
threads stand before the loop test.  `int local;` has no initialiser, so the
value each thread starts with is a parameter. -/
def start (l1 l2 : Int) : State where
  mtx := none
  shared_resource := 0
  locking_error := fun _ => 0
  pc := fun _ => PC.loop_test
  loc := fun i => match i with
    | .t1 => l1
    | .t2 => l2

/-! ## `pthread_func`, one action at a time -/

/-- One action of thread `e.tid` in `pthread_func`. -/
def step (s : State) (e : Event) : Option State :=
  let i := e.tid
  match s.pc i with
  | .loop_test =>
      if s.loc i ≠ 10000 then
        some { s with pc := Function.update s.pc i PC.trylock }
      else
        some { s with pc := Function.update s.pc i PC.finished }
  | .trylock =>
      match s.mtx with
      | some _ =>
          -- EBUSY
          some { s with pc := Function.update s.pc i PC.tally }
      | none =>
          some { s with mtx := some i, pc := Function.update s.pc i PC.cs_assign }
  | .tally =>
      if s.locking_error i.num = INT_MAX then none
      else
        some { s with
          locking_error :=
            Function.update s.locking_error i.num (s.locking_error i.num + 1)
          pc := Function.update s.pc i PC.loop_test }
  | .cs_assign =>
      some { s with
        shared_resource := s.loc i
        pc := Function.update s.pc i PC.cs_incr }
  | .cs_incr =>
      if s.shared_resource = INT_MAX then none
      else
        some { s with
          shared_resource := s.shared_resource + 1
          pc := Function.update s.pc i PC.cs_copy }
  | .cs_copy =>
      some { s with
        loc := Function.update s.loc i s.shared_resource
        pc := Function.update s.pc i PC.unlock }
  | .unlock =>
      if e.unlock_status ≠ 0 then
        some { s with pc := Function.update s.pc i PC.aborted }
      else
        some { s with mtx := none, pc := Function.update s.pc i PC.loop_test }
  | .finished => some s
  | .aborted => some s

/-- A state together with two observation counters per thread: how many times
the thread has called `pthread_mutex_trylock`, and how many of those calls
returned 0.  The counters are never read by `step`. -/
structure Run where
  st : State
  trylock_calls : Tid → Nat
  acquisitions : Tid → Nat

/-- The run that has not started yet. -/
def Run.start (l1 l2 : Int) : Run where
  st := Trylock.start l1 l2
  trylock_calls := fun _ => 0
  acquisitions := fun _ => 0

/-- One action, with the trylock calls counted. -/
def Run.step (r : Run) (e : Event) : Option Run :=
  match Trylock.step r.st e with
  | none => none
  | some s =>
      if r.st.pc e.tid = PC.trylock then
        some
          { st := s
            trylock_calls :=
              Function.update r.trylock_calls e.tid (r.trylock_calls e.tid + 1)
            acquisitions :=
              if r.st.mtx = none then
                Function.update r.acquisitions e.tid (r.acquisitions e.tid + 1)
              else r.acquisitions }
      else
        some { r with st := s }

/-- A schedule executed from `r`. -/
def exec (r : Run) : List Event → Option Run
  | [] => some r
  | e :: es =>
      match r.step e with
      | none => none
      | some r1 => exec r1 es

/-- Thread `i` is between a successful `pthread_mutex_trylock` and its
`pthread_mutex_unlock`. -/
def in_critical (s : State) (i : Tid) : Prop :=
  s.pc i = PC.cs_assign ∨ s.pc i = PC.cs_incr ∨ s.pc i = PC.cs_copy ∨ s.pc i = PC.unlock

instance (s : State) (i : Tid) : Decidable (in_critical s i) := by
  unfold in_critical; infer_instance

/-- An event of thread `i` whose unlock call, if any, succeeds. -/
def ev (i : Tid) : Event := ⟨i, 0⟩

/-- The six actions of one uncontended loop iteration of thread `i`:
loop test, trylock, the three statements of the critical section, unlock. -/
def iteration (i : Tid) : List Event := List.replicate 6 (ev i)

/-! ## `main` -/

/-- What `main` does, in order. -/
inductive Action where
  /-- `pthread_create` for the given thread, with the value it returned -/
  | create (t : Tid) (status : Int)
  /-- `printf("Error creating thread[..]!!")` -/
  | print_error (t : Tid)
  /-- `printf("Hello from main thread!!")` -/
  | print_hello
  /-- `pthread_join` on the given thread -/
  | join (t : Tid)
  /-- the three closing `printf`s of `shared_resource` and `locking_error[1..2]` -/
  | print_report
  deriving DecidableEq, Repr

/-- The actions `main` performed and the value it returned. -/
structure MainResult where
  actions : List Action
  ret : Int
  deriving DecidableEq, Repr

/-- The function `main`, given the values the two `pthread_create` calls return. -/
def main (status0 status1 : Int) : MainResult :=
  if status0 ≠ 0 then
    ⟨[Action.create Tid.t1 status0, Action.print_error Tid.t1], -1⟩
  else if status1 ≠ 0 then
    ⟨[Action.create Tid.t1 status0, Action.create Tid.t2 status1,
      Action.print_error Tid.t2], -1⟩
  else
    ⟨[Action.create Tid.t1 status0, Action.create Tid.t2 status1, Action.print_hello,
      Action.join Tid.t1, Action.join Tid.t2, Action.print_report], 0⟩

/-! ## Invariants and schedules -/

/-- Facts that hold in every state reachable from `start l1 l2`, whatever the
initial values of `local`. -/
structure Inv (s : State) : Prop where
  owner : ∀ i, in_critical s i → s.mtx = some i
  at_incr : ∀ i, s.pc i = PC.cs_incr → s.shared_resource = s.loc i
  at_copy : ∀ i, s.pc i = PC.cs_copy → s.shared_resource = s.loc i + 1
  at_exit : ∀ i, s.pc i = PC.finished → s.loc i = 10000
  in_loop : ∀ i, s.pc i = PC.trylock ∨ s.pc i = PC.cs_assign ∨ s.pc i = PC.cs_incr ∨
    s.pc i = PC.cs_copy → s.loc i ≠ 10000

/-- Bounds that hold when both threads start with `local = 0`. -/
structure Bounded (s : State) : Prop where
  loc_lo : ∀ i, 0 ≤ s.loc i
  loc_hi : ∀ i, s.loc i ≤ 10000
  shared_lo : 0 ≤ s.shared_resource
  shared_hi : s.shared_resource ≤ 10000

/-- When no thread stands between `shared_resource++` and `local = shared_resource`,
the shared counter equals the `local` of some thread. -/
def LastWrite (s : State) : Prop :=
  (∀ j, s.pc j ≠ PC.cs_copy) → ∃ i, s.shared_resource = s.loc i

/-- The number of threads whose trylock call has failed and whose increment of
line 54 is still to come. -/
def pending (s : State) : Nat :=
  (if s.pc Tid.t1 = PC.tally then 1 else 0) + (if s.pc Tid.t2 = PC.tally then 1 else 0)

/-- Each thread's failure tally plus its successful acquisitions, plus one while
it stands before the increment of line 54, is the number of
`pthread_mutex_trylock` calls it has made. -/
def Tally (r : Run) : Prop :=
  ∀ i, r.st.locking_error i.num + (r.acquisitions i : Int) +
      (if r.st.pc i = PC.tally then 1 else 0) = (r.trylock_calls i : Int)

/-- With `local` starting at 0, a thread's number of acquisitions is its `local`,
plus one while it is inside the three statements of the critical section. -/
def Counted (r : Run) : Prop :=
  ∀ i, (r.acquisitions i : Int) =
    r.st.loc i +
      (if r.st.pc i = PC.cs_assign ∨ r.st.pc i = PC.cs_incr ∨ r.st.pc i = PC.cs_copy
        then 1 else 0)

/-- The schedule in which thread `i` alone runs `n` loop iterations. -/
def iterations (i : Tid) : Nat → List Event
  | 0 => []
  | n + 1 => iteration i ++ iterations i n

/-- Thread `i` runs alone: 10000 loop iterations and the closing loop test. -/
def solo (i : Tid) : List Event := iterations i 10000 ++ [ev i]

/-- Thread 1 runs alone until it leaves its loop, then thread 2 does. -/
def sequential : List Event := solo Tid.t1 ++ solo Tid.t2

/-! ## State invariants are kept by every step -/

theorem inv_start (l1 l2 : Int) : Inv (start l1 l2) := by
  constructor <;> intro i <;> simp [start, in_critical]

theorem inv_excl {s : State} (h : ∀ i, in_critical s i → s.mtx = some i) {i j : Tid}
    (hne : j ≠ i) (hi : in_critical s i) : ¬ in_critical s j :=
  fun hj => hne (Option.some.inj ((h j hj).symm.trans (h i hi)))

set_option maxHeartbeats 4000000 in
theorem inv_step {s s1 : State} {e : Event} (h : Inv s) (hs : step s e = some s1) :
    Inv s1 := by
  obtain ⟨i, u⟩ := e
  obtain ⟨h1, h2, h3, h4, h5⟩ := h
  have hx := fun j (hne : j ≠ i) => inv_excl h1 hne
  simp only [in_critical] at h1 hx
  rcases hpc : s.pc i with _ | _ | _ | _ | _ | _ | _ | _ | _ <;>
    simp only [step, hpc] at hs <;>
    (try split at hs) <;>
    (try contradiction) <;>
    simp only [Option.some.injEq] at hs <;> subst hs <;>
    constructor <;> intro j <;>
    have g1 := h1 j <;> have g2 := h2 j <;> have g3 := h3 j <;> have g4 := h4 j <;>
    have g5 := h5 j <;> have k1 := h1 i <;> have gx := hx j <;>
    clear h1 h2 h3 h4 h5 hx <;>
    by_cases hj : j = i <;> simp_all [in_critical, Function.update]

theorem bounded_start : Bounded (start 0 0) := by
  constructor <;> first | (intro i; cases i <;> simp [start]) | simp [start]

set_option maxHeartbeats 4000000 in
theorem bounded_step {s s1 : State} {e : Event} (hI : Inv s) (h : Bounded s)
    (hs : step s e = some s1) : Bounded s1 := by
  obtain ⟨i, u⟩ := e
  obtain ⟨b1, b2, b3, b4⟩ := h
  have c1 := b1 i
  have c2 := b2 i
  have k2 := hI.at_incr i
  have k3 := hI.at_copy i
  have k5 := hI.in_loop i
  rcases hpc : s.pc i with _ | _ | _ | _ | _ | _ | _ | _ | _ <;>
    simp only [step, hpc] at hs <;>
    (try split at hs) <;>
    (try contradiction) <;>
    simp only [Option.some.injEq] at hs <;> subst hs <;>
    constructor <;> (try intro j) <;>
    (try have g1 := b1 j) <;> (try have g2 := b2 j) <;> clear b1 b2 <;>
    (try by_cases hj : j = i) <;> simp_all [Function.update] <;> omega

theorem lastWrite_start (l2 : Int) : LastWrite (start 0 l2) :=
  fun _ => ⟨Tid.t1, rfl⟩

set_option maxHeartbeats 4000000 in
theorem lastWrite_step {s s1 : State} {e : Event} (h : LastWrite s)
    (hs : step s e = some s1) : LastWrite s1 := by
  obtain ⟨i, u⟩ := e
  unfold LastWrite at h ⊢
  rcases hpc : s.pc i with _ | _ | _ | _ | _ | _ | _ | _ | _ <;>
    simp only [step, hpc] at hs <;>
    (try split at hs) <;>
    (try contradiction) <;>
    simp only [Option.some.injEq] at hs <;> subst hs
  case cs_assign => exact fun _ => ⟨i, rfl⟩
  case cs_incr.isFalse => exact fun hc => absurd (by simp) (hc i)
  case cs_copy => exact fun _ => ⟨i, by simp⟩
  all_goals
    intro hc
    have hc1 : ∀ j, s.pc j ≠ PC.cs_copy := by
      intro j
      by_cases hj : j = i
      · subst hj; simp [hpc]
      · simpa [Function.update, hj] using hc j
    simpa using h hc1

/-! ## Runs and their counters -/

theorem Run.step_some {r r1 : Run} {e : Event} (h : r.step e = some r1) :
    Trylock.step r.st e = some r1.st ∧
    r1.trylock_calls =
      (if r.st.pc e.tid = PC.trylock then
        Function.update r.trylock_calls e.tid (r.trylock_calls e.tid + 1)
      else r.trylock_calls) ∧
    r1.acquisitions =
      (if r.st.pc e.tid = PC.trylock ∧ r.st.mtx = none then
        Function.update r.acquisitions e.tid (r.acquisitions e.tid + 1)
      else r.acquisitions) := by
  unfold Run.step at h
  split at h
  · contradiction
  · next s hs =>
    split at h <;> simp only [Option.some.injEq] at h <;> subst h
    · next hp => by_cases hm : r.st.mtx = none <;> simp [hs, hp, hm]
    · next hp => simp [hs, hp]

theorem exec_append (r : Run) (a b : List Event) :
    exec r (a ++ b) = (exec r a).bind (fun r1 => exec r1 b) := by
  induction a generalizing r with
  | nil => rfl
  | cons e es ih =>
    simp only [List.cons_append, exec]
    cases r.step e with
    | none => rfl
    | some r1 => exact ih r1

/-- A property kept by every step holds after every schedule. -/
theorem exec_preserves (P : Run → Prop)
    (hstep : ∀ r e r1, P r → r.step e = some r1 → P r1) :
    ∀ (sched : List Event) (r r1 : Run), P r → exec r sched = some r1 → P r1 := by
  intro sched
  induction sched with
  | nil =>
    intro r r1 hP h
    simp only [exec, Option.some.injEq] at h
    exact h ▸ hP
  | cons e es ih =>
    intro r r1 hP h
    simp only [exec] at h
    cases hr : r.step e with
    | none => rw [hr] at h; contradiction
    | some r2 =>
      rw [hr] at h
      exact ih r2 r1 (hstep r e r2 hP hr) h

theorem tally_start (l1 l2 : Int) : Tally (Run.start l1 l2) := by
  intro i; simp [Run.start, start]

theorem num_injective {i j : Tid} (h : i.num = j.num) : i = j := by
  cases i <;> cases j <;> simp [Tid.num] at h ⊢

set_option maxHeartbeats 4000000 in
theorem tally_step {r r1 : Run} {e : Event} (h : Tally r) (hr : r.step e = some r1) :
    Tally r1 := by
  obtain ⟨hs, hc, ha⟩ := Run.step_some hr
  clear hr
  obtain ⟨s1, c1, a1⟩ := r1
  obtain ⟨i, u⟩ := e
  simp only at hs hc ha
  subst hc ha
  intro j
  have hj := h j
  have hi := h i
  have hn : j ≠ i → ¬ j.num = i.num := fun hne hnum => hne (num_injective hnum)
  clear h
  rcases hpc : r.st.pc i with _ | _ | _ | _ | _ | _ | _ | _ | _ <;>
    simp only [step, hpc] at hs <;>
    (try split at hs) <;>
    (try contradiction) <;>
    simp only [Option.some.injEq] at hs <;> subst hs <;>
    by_cases hji : j = i <;> simp_all [Function.update] <;> omega

theorem counted_start : Counted (Run.start 0 0) := by
  intro i; cases i <;> simp [Run.start, start]

set_option maxHeartbeats 4000000 in
theorem counted_step {r r1 : Run} {e : Event} (hI : Inv r.st) (h : Counted r)
    (hr : r.step e = some r1) : Counted r1 := by
  obtain ⟨hs, hc, ha⟩ := Run.step_some hr
  clear hr
  obtain ⟨s1, c1, a1⟩ := r1
  obtain ⟨i, u⟩ := e
  simp only at hs hc ha
  subst hc ha
  intro j
  have hj := h j
  have hi := h i
  have k3 := hI.at_copy i
  clear h
  rcases hpc : r.st.pc i with _ | _ | _ | _ | _ | _ | _ | _ | _ <;>
    simp only [step, hpc] at hs <;>
    (try split at hs) <;>
    (try contradiction) <;>
    simp only [Option.some.injEq] at hs <;> subst hs <;>
    by_cases hji : j = i <;> simp_all [Function.update]

/-! ## Reachable states -/

theorem reach_any {l1 l2 : Int} {sched : List Event} {r : Run}
    (h : exec (Run.start l1 l2) sched = some r) : Inv r.st ∧ Tally r :=
  exec_preserves (fun x => Inv x.st ∧ Tally x)
    (fun _ _ _ hP hs => ⟨inv_step hP.1 (Run.step_some hs).1, tally_step hP.2 hs⟩)
    sched _ r ⟨inv_start l1 l2, tally_start l1 l2⟩ h

theorem reach_zero {sched : List Event} {r : Run}
    (h : exec (Run.start 0 0) sched = some r) :
    Inv r.st ∧ Bounded r.st ∧ LastWrite r.st ∧ Counted r :=
  exec_preserves (fun x => Inv x.st ∧ Bounded x.st ∧ LastWrite x.st ∧ Counted x)
    (fun _ _ _ hP hs =>
      ⟨inv_step hP.1 (Run.step_some hs).1,
        bounded_step hP.1 hP.2.1 (Run.step_some hs).1,
        lastWrite_step hP.2.2.1 (Run.step_some hs).1,
        counted_step hP.1 hP.2.2.2 hs⟩)
    sched _ r ⟨inv_start 0 0, bounded_start, lastWrite_start 0, counted_start⟩ h

/-- A thread that has left `pthread_func` takes no further action. -/
theorem terminated_step (r : Run) (e : Event)
    (h : r.st.pc e.tid = PC.finished ∨ r.st.pc e.tid = PC.aborted) : r.step e = some r := by
  rcases h with h | h <;> simp [Run.step, step, h]

/-! ## Uncontended iterations -/

theorem exec_iteration (r : Run) (i : Tid) (hpc : r.st.pc i = PC.loop_test)
    (hm : r.st.mtx = none) (hl : r.st.loc i ≠ 10000) (hmax : r.st.loc i ≠ INT_MAX) :
    ∃ r1, exec r (iteration i) = some r1 ∧ r1.st.pc i = PC.loop_test ∧ r1.st.mtx = none ∧
      r1.st.loc i = r.st.loc i + 1 ∧ r1.st.shared_resource = r.st.loc i + 1 ∧
      ∀ j, j ≠ i → r1.st.pc j = r.st.pc j ∧ r1.st.loc j = r.st.loc j := by
  simp [iteration, List.replicate, exec, Run.step, step, ev, hpc, hm, hl, hmax]
  intro j hj
  simp [Function.update, hj]

theorem exec_iterations (i : Tid) : ∀ (n : Nat) (r : Run), r.st.pc i = PC.loop_test →
    r.st.mtx = none → 0 ≤ r.st.loc i → r.st.loc i + n ≤ 10000 →
    ∃ r1, exec r (iterations i n) = some r1 ∧ r1.st.pc i = PC.loop_test ∧
      r1.st.mtx = none ∧ r1.st.loc i = r.st.loc i + n ∧
      ∀ j, j ≠ i → r1.st.pc j = r.st.pc j ∧ r1.st.loc j = r.st.loc j := by
  intro n
  induction n with
  | zero =>
    intro r hpc hm _ _
    exact ⟨r, rfl, hpc, hm, by simp, fun _ _ => ⟨rfl, rfl⟩⟩
  | succ n ih =>
    intro r hpc hm h0 hn
    have hl : r.st.loc i ≠ 10000 := by push_cast at hn; omega
    have hmax : r.st.loc i ≠ INT_MAX := by unfold INT_MAX; push_cast at hn; omega
    obtain ⟨r1, e1, p1, m1, l1, _, o1⟩ := exec_iteration r i hpc hm hl hmax
    obtain ⟨r2, e2, p2, m2, l2, o2⟩ :=
      ih r1 p1 m1 (by omega) (by push_cast at hn; omega)
    refine ⟨r2, ?_, p2, m2, ?_, ?_⟩
    · simp [iterations, exec_append, e1, e2]
    · push_cast; omega
    · intro j hj
      exact ⟨(o2 j hj).1.trans (o1 j hj).1, (o2 j hj).2.trans (o1 j hj).2⟩

theorem exec_exit (r : Run) (i : Tid) (hpc : r.st.pc i = PC.loop_test)
    (hl : r.st.loc i = 10000) :
    ∃ r1, exec r [ev i] = some r1 ∧ r1.st.pc i = PC.finished ∧ r1.st.mtx = r.st.mtx ∧
      ∀ j, j ≠ i → r1.st.pc j = r.st.pc j ∧ r1.st.loc j = r.st.loc j := by
  simp [exec, Run.step, step, ev, hpc, hl]
  intro j hj
  simp [Function.update, hj]

theorem exec_solo (r : Run) (i : Tid) (hpc : r.st.pc i = PC.loop_test)
    (hm : r.st.mtx = none) (h0 : r.st.loc i = 0) :
    ∃ r1, exec r (solo i) = some r1 ∧ r1.st.pc i = PC.finished ∧ r1.st.mtx = none ∧
      ∀ j, j ≠ i → r1.st.pc j = r.st.pc j ∧ r1.st.loc j = r.st.loc j := by
  obtain ⟨r1, e1, p1, m1, l1, o1⟩ :=
    exec_iterations i 10000 r hpc hm (by omega) (by rw [h0]; norm_num)
  obtain ⟨r2, e2, p2, m2, o2⟩ := exec_exit r1 i p1 (by rw [l1, h0]; norm_num)
  refine ⟨r2, ?_, p2, m2.trans m1, ?_⟩
  · simp [solo, exec_append, e1, e2]
  · intro j hj
    exact ⟨(o2 j hj).1.trans (o1 j hj).1, (o2 j hj).2.trans (o1 j hj).2⟩

theorem exec_sequential :
    ∃ r, exec (Run.start 0 0) sequential = some r ∧
      r.st.pc Tid.t1 = PC.finished ∧ r.st.pc Tid.t2 = PC.finished := by
  obtain ⟨r1, e1, p1, m1, o1⟩ := exec_solo (Run.start 0 0) Tid.t1 rfl rfl rfl
  have q1 := o1 Tid.t2 (by decide)
  obtain ⟨r2, e2, p2, _, o2⟩ := exec_solo r1 Tid.t2 (q1.1.trans rfl) m1 (q1.2.trans rfl)
  have q2 := o2 Tid.t1 (by decide)
  exact ⟨r2, by simp [sequential, exec_append, e1, e2], q2.1.trans p1, p2⟩

/-- What the three statements of the critical section compute: whatever
`shared_resource` held, it ends as the old `local` plus 1, and so does `local`. -/
theorem critical_section_effect (r : Run) (i : Tid) (hpc : r.st.pc i = PC.cs_assign)
    (hmax : r.st.loc i ≠ INT_MAX) :
    ∃ r1, exec r (List.replicate 3 (ev i)) = some r1 ∧ r1.st.pc i = PC.unlock ∧
      r1.st.shared_resource = r.st.loc i + 1 ∧ r1.st.loc i = r.st.loc i + 1 := by
  simp [List.replicate, exec, Run.step, step, ev, hpc, hmax]

/-! ## The claims -/

/-- C1 (conservation): in the run of `main` with both workers starting from
`local = 0`, whenever both workers have left their loop normally the value of
`shared_resource` is 10000, and it stays 10000 in every later state, so this is
the value `main` reads after both joins. -/
theorem conservation (sched : List Event) (r : Run)
    (h : exec (Run.start 0 0) sched = some r)
    (h1 : r.st.pc Tid.t1 = PC.finished) (h2 : r.st.pc Tid.t2 = PC.finished) :
    r.st.shared_resource = 10000 ∧
      ∀ later r2, exec r later = some r2 → r2.st.shared_resource = 10000 := by
  obtain ⟨hI, _, hL, _⟩ := reach_zero h
  have hv : r.st.shared_resource = 10000 := by
    obtain ⟨i, hi⟩ := hL (fun j => by cases j <;> simp [h1, h2])
    rw [hi]
    cases i
    · exact hI.at_exit _ h1
    · exact hI.at_exit _ h2
  refine ⟨hv, fun later r2 h3 => ?_⟩
  have hst : r2 = r :=
    exec_preserves (fun x => x = r)
      (fun x e x1 hx hs => by
        subst hx
        have ht : x.st.pc e.tid = PC.finished ∨ x.st.pc e.tid = PC.aborted := by
          rcases e with ⟨i, u⟩
          cases i
          · exact Or.inl h1
          · exact Or.inl h2
        rw [terminated_step x e ht] at hs
        exact (Option.some.inj hs).symm)
      later r r2 rfl h3
  rw [hst]
  exact hv

theorem conservation_witness :
    ∃ r, exec (Run.start 0 0) sequential = some r ∧ r.st.pc Tid.t1 = PC.finished ∧
      r.st.pc Tid.t2 = PC.finished ∧ r.st.shared_resource = 10000 := by
  obtain ⟨r, h, h1, h2⟩ := exec_sequential
  exact ⟨r, h, h1, h2, (conservation sequential r h h1 h2).1⟩

/-- C2 (evaluation of the code): in the complete run `sequential`, where both
workers start from `local = 0` and both leave their loop normally, the workers
make 10000 successful acquisitions each, 20000 in total and not 10000. -/
theorem acquisitions_sequential :
    ∃ r, exec (Run.start 0 0) sequential = some r ∧ r.st.pc Tid.t1 = PC.finished ∧
      r.st.pc Tid.t2 = PC.finished ∧
      r.acquisitions Tid.t1 + r.acquisitions Tid.t2 = 20000 ∧
      r.acquisitions Tid.t1 + r.acquisitions Tid.t2 ≠ 10000 := by
  obtain ⟨r, h, h1, h2⟩ := exec_sequential
  obtain ⟨hI, _, _, hC⟩ := reach_zero h
  have c1 := hC Tid.t1
  have c2 := hC Tid.t2
  have e1 := hI.at_exit _ h1
  have e2 := hI.at_exit _ h2
  simp only [h1, h2, e1, e2, reduceCtorEq, or_self, if_false] at c1 c2
  refine ⟨r, h, h1, h2, ?_, ?_⟩ <;> omega

/-- C3 (mutual exclusion): in every state reachable from the initial state, at
most one worker is between a successful `pthread_mutex_trylock` and its
`pthread_mutex_unlock`, and every step that changes `shared_resource` is taken
by a worker that is inside its critical section and owns the mutex. -/
theorem mutual_exclusion (l1 l2 : Int) (sched : List Event) (r : Run)
    (h : exec (Run.start l1 l2) sched = some r) :
    (∀ i j, in_critical r.st i → in_critical r.st j → i = j) ∧
      ∀ e s1, step r.st e = some s1 → s1.shared_resource ≠ r.st.shared_resource →
        in_critical r.st e.tid ∧ r.st.mtx = some e.tid := by
  obtain ⟨hI, _⟩ := reach_any h
  refine ⟨fun i j hi hj => ?_, fun e s1 hs hne => ?_⟩
  · exact Option.some.inj ((hI.owner i hi).symm.trans (hI.owner j hj))
  · have hc : in_critical r.st e.tid := by
      rcases hpc : r.st.pc e.tid with _ | _ | _ | _ | _ | _ | _ | _ | _ <;>
        simp only [step, hpc] at hs <;>
        (try split at hs) <;> (try contradiction) <;>
        simp only [Option.some.injEq] at hs <;> subst hs <;>
        simp_all [in_critical]
    exact ⟨hc, hI.owner _ hc⟩

theorem mutual_exclusion_witness :
    ∃ r, exec (Run.start 7 3) [ev Tid.t1, ev Tid.t2, ev Tid.t2, ev Tid.t1, ev Tid.t2] = some r ∧
      (∀ i j, in_critical r.st i → in_critical r.st j → i = j) ∧
      ∀ e s1, step r.st e = some s1 → s1.shared_resource ≠ r.st.shared_resource →
        in_critical r.st e.tid ∧ r.st.mtx = some e.tid := by
  obtain ⟨r, h⟩ := Option.isSome_iff_exists.mp
    (show (exec (Run.start 7 3)
      [ev Tid.t1, ev Tid.t2, ev Tid.t2, ev Tid.t1, ev Tid.t2]).isSome = true by decide)
  exact ⟨r, h, mutual_exclusion 7 3 _ r h⟩

/-- C4 (counterexample): thread 1 wins the trylock, then the trylock call of
thread 2 returns `EBUSY`; before thread 2 executes `locking_error[2]++` two calls
have been made while the tallies are both 0 and there is 1 acquisition. -/
theorem tally_lags_behind_call :
    (exec (Run.start 0 0) [ev Tid.t1, ev Tid.t2, ev Tid.t1, ev Tid.t2]).map
        (fun r => (r.st.locking_error 1, r.st.locking_error 2,
          r.acquisitions Tid.t1 + r.acquisitions Tid.t2,
          r.trylock_calls Tid.t1 + r.trylock_calls Tid.t2, r.st.pc Tid.t2)) =
      some (0, 0, 1, 2, PC.tally) := by
  decide

/-- C4 (amended): at every point of every run,
`locking_error[1] + locking_error[2]` plus the number of successful acquisitions
plus the number of workers standing between a failed trylock call and the
increment of line 54 is the number of `pthread_mutex_trylock` calls made so far,
so the equation of the claim holds whenever no worker stands there.  A call
changes no slot itself; it either sends the caller to line 54 (nothing acquired,
outside the critical section) or enters the critical section, never both and
never neither; and the action of line 54 adds exactly 1 to the caller's slot,
touches no other slot, makes no call and sends the caller back to the loop test. -/
theorem tally_consistency (l1 l2 : Int) (sched : List Event) (r : Run)
    (h : exec (Run.start l1 l2) sched = some r) :
    (r.st.locking_error 1 + r.st.locking_error 2 +
        ((r.acquisitions Tid.t1 + r.acquisitions Tid.t2 : Nat) : Int) +
        (pending r.st : Int) =
      ((r.trylock_calls Tid.t1 + r.trylock_calls Tid.t2 : Nat) : Int)) ∧
    ((∀ i, r.st.pc i ≠ PC.tally) →
      r.st.locking_error 1 + r.st.locking_error 2 +
          ((r.acquisitions Tid.t1 + r.acquisitions Tid.t2 : Nat) : Int) =
        ((r.trylock_calls Tid.t1 + r.trylock_calls Tid.t2 : Nat) : Int)) ∧
    (∀ e r1, r.st.pc e.tid = PC.trylock → r.step e = some r1 →
      r1.trylock_calls e.tid = r.trylock_calls e.tid + 1 ∧
      r1.st.locking_error = r.st.locking_error ∧
      ((r1.st.pc e.tid = PC.tally ∧ ¬ in_critical r1.st e.tid ∧
          r1.acquisitions = r.acquisitions) ∨
        (in_critical r1.st e.tid ∧ r1.acquisitions e.tid = r.acquisitions e.tid + 1)) ∧
      ¬ (r1.st.pc e.tid = PC.tally ∧ in_critical r1.st e.tid)) ∧
    ∀ e r1, r.st.pc e.tid = PC.tally → r.step e = some r1 →
      r1.st.locking_error e.tid.num = r.st.locking_error e.tid.num + 1 ∧
      (∀ k, k ≠ e.tid.num → r1.st.locking_error k = r.st.locking_error k) ∧
      r1.st.pc e.tid = PC.loop_test ∧ r1.trylock_calls = r.trylock_calls ∧
      r1.acquisitions = r.acquisitions := by
  obtain ⟨_, hT⟩ := reach_any h
  have a := hT Tid.t1
  have b := hT Tid.t2
  simp only [Tid.num] at a b
  refine ⟨?_, ?_, ?_, ?_⟩
  · unfold pending
    push_cast
    omega
  · intro hn
    have n1 := hn Tid.t1
    have n2 := hn Tid.t2
    simp only [n1, n2, if_false] at a b
    push_cast
    omega
  · intro e r1 hpc hr
    obtain ⟨hs, hc, ha⟩ := Run.step_some hr
    obtain ⟨s1, c1, a1⟩ := r1
    obtain ⟨i, u⟩ := e
    simp only at hs hc ha hpc
    subst hc ha
    simp only [step, hpc] at hs
    split at hs <;> simp only [Option.some.injEq] at hs <;> subst hs <;>
      simp_all [in_critical, Function.update]
  · intro e r1 hpc hr
    obtain ⟨hs, hc, ha⟩ := Run.step_some hr
    obtain ⟨s1, c1, a1⟩ := r1
    obtain ⟨i, u⟩ := e
    simp only at hs hc ha hpc
    subst hc ha
    simp only [step, hpc] at hs
    split at hs
    · contradiction
    · simp only [Option.some.injEq] at hs
      subst hs
      simp_all [Function.update]

theorem tally_consistency_witness :
    ∃ r, exec (Run.start 5 9) [ev Tid.t1, ev Tid.t2, ev Tid.t2, ev Tid.t1, ev Tid.t1] = some r ∧
      (∀ i, r.st.pc i ≠ PC.tally) ∧
      r.st.locking_error 1 + r.st.locking_error 2 +
        ((r.acquisitions Tid.t1 + r.acquisitions Tid.t2 : Nat) : Int) =
      ((r.trylock_calls Tid.t1 + r.trylock_calls Tid.t2 : Nat) : Int) := by
  have h : exec (Run.start 5 9) [ev Tid.t1, ev Tid.t2, ev Tid.t2, ev Tid.t1, ev Tid.t1] =
      some ((exec (Run.start 5 9)
        [ev Tid.t1, ev Tid.t2, ev Tid.t2, ev Tid.t1, ev Tid.t1]).getD (Run.start 5 9)) :=
    rfl
  have hn : ∀ i, ((exec (Run.start 5 9)
      [ev Tid.t1, ev Tid.t2, ev Tid.t2, ev Tid.t1, ev Tid.t1]).getD
        (Run.start 5 9)).st.pc i ≠ PC.tally := by
    intro i
    cases i <;> decide
  exact ⟨_, h, hn, (tally_consistency 5 9 _ _ h).2.1 hn⟩

/-- C6 (bound): with `shared_resource` and both `local`s starting at 0, in every
reachable state, the ones inside a critical section included,
`0 <= shared_resource <= 10000`; hence `shared_resource++` is always executed
below `INT_MAX`, it is defined and adds exactly 1. -/
theorem counter_bounded (sched : List Event) (r : Run)
    (h : exec (Run.start 0 0) sched = some r) :
    0 ≤ r.st.shared_resource ∧ r.st.shared_resource ≤ 10000 ∧
      ∀ e, r.st.pc e.tid = PC.cs_incr →
        r.st.shared_resource + 1 ≤ INT_MAX ∧
          ∃ s1, step r.st e = some s1 ∧ s1.shared_resource = r.st.shared_resource + 1 := by
  obtain ⟨_, hB, _, _⟩ := reach_zero h
  have lo := hB.shared_lo
  have hi := hB.shared_hi
  refine ⟨lo, hi, fun e hpc => ⟨by unfold INT_MAX; omega, ?_⟩⟩
  have hne : r.st.shared_resource ≠ INT_MAX := by unfold INT_MAX; omega
  simp [step, hpc, hne]

theorem counter_bounded_witness :
    ∃ r, exec (Run.start 0 0) (iteration Tid.t2 ++ [ev Tid.t1, ev Tid.t1, ev Tid.t1]) = some r ∧
      0 ≤ r.st.shared_resource ∧ r.st.shared_resource ≤ 10000 := by
  obtain ⟨r, h⟩ := Option.isSome_iff_exists.mp
    (show (exec (Run.start 0 0)
      (iteration Tid.t2 ++ [ev Tid.t1, ev Tid.t1, ev Tid.t1])).isSome = true by decide)
  have hb := counter_bounded _ r h
  exact ⟨r, h, hb.1, hb.2.1⟩

/-- C9 (release failure): when `pthread_mutex_unlock` returns non-zero, the
calling worker terminates at once, in the aborted state whatever its `local`
is; that step changes neither `shared_resource` nor `locking_error` nor the
other worker, and in every continuation the worker stays terminated, makes no
further trylock call, and each of its steps leaves the whole state unchanged. -/
theorem unlock_failure_fatal (r : Run) (e : Event) (hpc : r.st.pc e.tid = PC.unlock)
    (hu : e.unlock_status ≠ 0) :
    ∃ r1, r.step e = some r1 ∧ r1.st.pc e.tid = PC.aborted ∧
      r1.st.shared_resource = r.st.shared_resource ∧
      r1.st.locking_error = r.st.locking_error ∧
      r1.trylock_calls = r.trylock_calls ∧
      (∀ j, j ≠ e.tid → r1.st.pc j = r.st.pc j) ∧
      ∀ later r2, exec r1 later = some r2 →
        r2.st.pc e.tid = PC.aborted ∧ r2.trylock_calls e.tid = r.trylock_calls e.tid ∧
          ∀ e2, e2.tid = e.tid → r2.step e2 = some r2 := by
  obtain ⟨i, u⟩ := e
  simp only at hpc hu
  obtain ⟨r1, hr1⟩ : ∃ r1 : Run,
      r1 = { r with st := { r.st with pc := Function.update r.st.pc i PC.aborted } } :=
    ⟨_, rfl⟩
  have p1 : r1.st.pc i = PC.aborted := by subst hr1; simp
  have c1 : r1.trylock_calls i = r.trylock_calls i := by subst hr1; rfl
  refine ⟨r1, by subst hr1; simp [Run.step, step, hpc, hu], p1, by subst hr1; rfl,
    by subst hr1; rfl, by subst hr1; rfl,
    fun j hj => by subst hr1; simp [Function.update, hj], fun later r2 h2 => ?_⟩
  have key : r2.st.pc i = PC.aborted ∧ r2.trylock_calls i = r.trylock_calls i :=
    exec_preserves (fun x => x.st.pc i = PC.aborted ∧ x.trylock_calls i = r.trylock_calls i)
      (fun x e1 x1 hx hs => by
        obtain ⟨hs1, hc, _⟩ := Run.step_some hs
        obtain ⟨j, v⟩ := e1
        by_cases hj : j = i
        · subst hj
          rw [terminated_step x _ (Or.inr hx.1)] at hs
          cases hs
          exact hx
        · have hji : i ≠ j := fun hh => hj hh.symm
          constructor
          · have hp := hx.1
            rcases hq : x.st.pc j with _ | _ | _ | _ | _ | _ | _ | _ | _ <;>
              simp only [step, hq] at hs1 <;>
              (try split at hs1) <;> (try contradiction) <;>
              simp only [Option.some.injEq] at hs1 <;> rw [← hs1] <;>
              simp [Function.update, hji, hp]
          · rw [hc]
            split <;> simp [Function.update, hji, hx.2])
      later r1 r2 ⟨p1, c1⟩ h2
  exact ⟨key.1, key.2, fun e2 he2 => terminated_step r2 e2 (Or.inr (he2 ▸ key.1))⟩

theorem unlock_failure_fatal_witness :
    ∃ r, exec (Run.start 9999 0) (List.replicate 5 (ev Tid.t1)) = some r ∧
      r.st.pc Tid.t1 = PC.unlock ∧ r.st.loc Tid.t1 = 10000 ∧
      ∃ r1, r.step ⟨Tid.t1, 1⟩ = some r1 ∧ r1.st.pc Tid.t1 = PC.aborted ∧
        r1.st.shared_resource = r.st.shared_resource := by
  have h : exec (Run.start 9999 0) (List.replicate 5 (ev Tid.t1)) =
      some ((exec (Run.start 9999 0) (List.replicate 5 (ev Tid.t1))).getD (Run.start 0 0)) :=
    rfl
  obtain ⟨r1, a, b, c, _⟩ :=
    unlock_failure_fatal
      ((exec (Run.start 9999 0) (List.replicate 5 (ev Tid.t1))).getD (Run.start 0 0))
      ⟨Tid.t1, 1⟩ rfl (by decide)
  exact ⟨_, h, rfl, rfl, r1, a, b, c⟩


/-- C5 (evaluation of the code): after two uncontended iterations of thread 1,
thread 2 (whose `local` is still 0) wins the trylock with `shared_resource = 2`;
when its critical section is complete and the mutex released,
`shared_resource = 1`, less than before the critical section began. -/
theorem shared_resource_decreases :
    (exec (Run.start 0 0) (iteration Tid.t1 ++ iteration Tid.t1 ++ [ev Tid.t2, ev Tid.t2])).map
        (fun r => (r.st.pc Tid.t2, r.st.mtx, r.st.shared_resource)) =
      some (PC.cs_assign, some Tid.t2, 2) ∧
    (exec (Run.start 0 0) (iteration Tid.t1 ++ iteration Tid.t1 ++ iteration Tid.t2)).map
        (fun r => (r.st.pc Tid.t2, r.st.mtx, r.st.shared_resource)) =
      some (PC.loop_test, none, 1) := by
  decide

/-- C7 (counterexample): when thread 1 is created (`pthread_create` returns 0)
and creating thread 2 fails with `EAGAIN = 11`, `main` returns -1 and its
actions contain no `pthread_join` of thread 1. -/
theorem main_returns_without_join :
    (main 0 11).ret = -1 ∧ Action.create Tid.t1 0 ∈ (main 0 11).actions ∧
      Action.join Tid.t1 ∉ (main 0 11).actions := by
  decide

/-- C7 (amended): when a `pthread_create` call returns non-zero, `main` prints
the error message for that thread and returns -1 at once: the failed creation
and the message are the last things it does, so it creates no further worker,
joins none, and prints neither the greeting nor the report. -/
theorem spawn_failure_returns (status0 status1 : Int) (h : status0 ≠ 0 ∨ status1 ≠ 0) :
    (main status0 status1).ret = -1 ∧
      (status0 ≠ 0 → (main status0 status1).actions =
        [Action.create Tid.t1 status0, Action.print_error Tid.t1]) ∧
      (status0 = 0 → (main status0 status1).actions =
        [Action.create Tid.t1 0, Action.create Tid.t2 status1, Action.print_error Tid.t2]) ∧
      (∀ t, Action.join t ∉ (main status0 status1).actions) := by
  unfold main
  by_cases h0 : status0 ≠ 0
  · simp [h0]
  · have h1 : status1 ≠ 0 := by
      rcases h with h | h
      · exact absurd h h0
      · exact h
    have h0z : status0 = 0 := not_not.mp h0
    simp [h0z, h1]

theorem spawn_failure_returns_witness :
    ((0 : Int) ≠ 0 ∨ (11 : Int) ≠ 0) ∧ (main 0 11).ret = -1 ∧
      (main 0 11).actions =
        [Action.create Tid.t1 0, Action.create Tid.t2 11, Action.print_error Tid.t2] ∧
      (∀ t, Action.join t ∉ (main 0 11).actions) :=
  ⟨Or.inr (by decide),
    (spawn_failure_returns 0 11 (Or.inr (by decide))).1,
    (spawn_failure_returns 0 11 (Or.inr (by decide))).2.2.1 rfl,
    (spawn_failure_returns 0 11 (Or.inr (by decide))).2.2.2⟩

/-- C8 (evaluation of the code): after one uncontended iteration of thread 1,
thread 2 wins the trylock with `shared_resource = 1` and `local = 0`; after the
three statements of its critical section `shared_resource` is 1, the old
`local` plus 1, and not the 2 that the value before the section plus 1 gives. -/
theorem critical_section_overwrites :
    (exec (Run.start 0 0) (iteration Tid.t1 ++ [ev Tid.t2, ev Tid.t2])).map
        (fun r => (r.st.pc Tid.t2, r.st.mtx, r.st.shared_resource, r.st.loc Tid.t2)) =
      some (PC.cs_assign, some Tid.t2, 1, 0) ∧
    (exec (Run.start 0 0)
        (iteration Tid.t1 ++ [ev Tid.t2, ev Tid.t2] ++ List.replicate 3 (ev Tid.t2))).map
        (fun r => (r.st.pc Tid.t2, r.st.mtx, r.st.shared_resource, r.st.loc Tid.t2)) =
      some (PC.unlock, some Tid.t2, 1, 1) := by
  decide

/-- C10 (evaluation of the code): `int local;` is not initialised; when the
value thread 1 finds in it is 10000, its first action is the loop test, which
fails, and the thread terminates having made no trylock call. -/
theorem uninitialised_local_skips_loop :
    (exec (Run.start 10000 0) [ev Tid.t1]).map
        (fun r => (r.st.pc Tid.t1, r.trylock_calls Tid.t1, r.st.shared_resource)) =
      some (PC.finished, 0, 0) := by
  decide

end Trylock
